import Mathlib

/-!
Shallow embedding of the batch image-converter state component of
`src/src/App.jsx` (conversor_web): the `App` component's `files`/`appState`
state and its handlers `handleFilesAccepted`, `handleTargetTypeChange`,
`handleApplyToAll`, `handleConvert`, `handleDownloadAll`, `handleReset`.

Blobs are opaque and modelled as `Nat` tags.  The external
ConversionService (`imageCompression`) is modelled as an oracle
`Nat → Option Nat` giving, for each entry index, either the compressed
blob (`some b`) or a failure (`none`); JavaScript's `Promise.all` over
the per-entry tasks is modelled by an indexed map over the entry list,
which is exactly the order-preserving join the code performs.
-/

namespace ConversorWeb

/-- Fuel-driven decimal digit worker (structural recursion on the fuel,
in the style of core's `Nat.toDigits`); `decDigits` below supplies enough
fuel that the base case is never reached. -/
def decDigitsAux (fuel n : Nat) : List Char :=
  match fuel with
  | 0 => []
  | fuel' + 1 =>
      if n < 10 then [Nat.digitChar n]
      else decDigitsAux fuel' (n / 10) ++ [Nat.digitChar (n % 10)]

/-- Decimal digit list of a natural number, most significant digit first:
the embedding of JavaScript's number-to-string conversion performed by the
template literal in `${file.lastModified}` and `${index}`. -/
def decDigits (n : Nat) : List Char :=
  decDigitsAux (n + 1) n

/-- Decimal string of a natural number (JS number-to-string). -/
def decStr (n : Nat) : String :=
  String.mk (decDigits n)

/-- A source `File` handed to `onFilesAccepted`: its `name`,
`lastModified` timestamp, MIME `type`, and opaque byte `content`. -/
structure InputFile where
  name : String
  lastModified : Nat
  type : String
  content : Nat
  deriving DecidableEq

/-- The `File` produced by `new File([compressedFile], newName, { type })`
in `handleConvert`: a name, opaque content, and MIME type. -/
structure ConvertedFile where
  name : String
  content : Nat
  mime : String
  deriving DecidableEq

/-- One element of the `files` state array built by `handleFilesAccepted`. -/
structure FileEntry where
  id : String
  originalFile : InputFile
  originalName : String
  originalType : String
  targetType : String
  status : String
  convertedFile : Option ConvertedFile
  deriving DecidableEq

/-- The `App` component state: the `files` array and the `appState`
string (one of "upload", "managing", "converted"). -/
structure AppState where
  files : List FileEntry
  appState : String
  deriving DecidableEq

/-- `file.type.split('/')[1]`: the MIME subtype. -/
def mimeSubtype (s : String) : String :=
  match s.splitOn "/" with
  | _ :: t :: _ => t
  | _ => ""

/-- `Array.prototype.map` with the element index, starting at `k`:
used to embed `acceptedFiles.map((file, index) => ...)` and the
`Promise.all` join in `handleConvert`. -/
def mapWithIndex (g : Nat → α → β) : Nat → List α → List β
  | _, [] => []
  | k, a :: as => g k a :: mapWithIndex g (k + 1) as

/-- The id template literal: `${file.name}-${file.lastModified}-${index}`. -/
def idOf (name : String) (lastModified : Nat) (index : Nat) : String :=
  name ++ "-" ++ decStr lastModified ++ "-" ++ decStr index

/-- The entry object literal built for each accepted file. -/
def mkEntry (index : Nat) (file : InputFile) : FileEntry :=
  { id := idOf file.name file.lastModified index
    originalFile := file
    originalName := file.name
    originalType := mimeSubtype file.type
    targetType := "webp"
    status := "pending"
    convertedFile := none }

/-- `handleFilesAccepted`: replaces the whole batch with fresh entries and
sets `appState` to "managing". -/
def handleFilesAccepted (_s : AppState) (acceptedFiles : List InputFile) : AppState :=
  { files := mapWithIndex mkEntry 0 acceptedFiles
    appState := "managing" }

/-- `handleTargetTypeChange(id, newType)`: per-entry target format update. -/
def handleTargetTypeChange (s : AppState) (id newType : String) : AppState :=
  { s with files := s.files.map fun file =>
      if file.id = id then { file with targetType := newType } else file }

/-- `handleApplyToAll(newType)`: batch-wide target format update. -/
def handleApplyToAll (s : AppState) (newType : String) : AppState :=
  { s with files := s.files.map fun file => { file with targetType := newType } }

/-- `file.originalName.substring(0, file.originalName.lastIndexOf('.'))`:
the characters strictly before the last `'.'`; the empty list when there
is no `'.'` (JS `lastIndexOf` returns `-1` and `substring` clamps it to 0). -/
def stemChars (l : List Char) : List Char :=
  let r := l.reverse
  let suffix := r.takeWhile (fun c => c != '.')
  if suffix.length = r.length then [] else (r.drop (suffix.length + 1)).reverse

/-- The stem of a file name, per the JS `substring`/`lastIndexOf` idiom. -/
def stemOf (s : String) : String :=
  String.mk (stemChars s.data)

/-- One conversion task of `handleConvert`: on oracle success build the
renamed result file and mark the entry `converted`; on failure mark it
`error` (the `catch` branch spreads the old entry, so every other field —
including any previous `convertedFile` — is kept). -/
def convertOne (result : Option Nat) (file : FileEntry) : FileEntry :=
  match result with
  | some b =>
      { file with
          status := "converted"
          convertedFile := some
            { name := stemOf file.originalName ++ "." ++ file.targetType
              content := b
              mime := "image/" ++ file.targetType } }
  | none => { file with status := "error" }

/-- `handleConvert`: one task per entry of the current batch, joined by
`Promise.all` (order-preserving); the final `setFiles(updatedFiles)`
overwrites the transient all-"converting" state, and `appState` becomes
"converted". -/
def handleConvert (s : AppState) (oracle : Nat → Option Nat) : AppState :=
  { files := mapWithIndex (fun i file => convertOne (oracle i) file) 0 s.files
    appState := "converted" }

/-- `handleDownloadAll`: the (name, blob) pairs handed to JSZip — one per
entry with `status === 'converted'` and a present `convertedFile`, in list
order — together with the archive file name passed to `saveAs`. -/
def handleDownloadAll (s : AppState) : List (String × ConvertedFile) × String :=
  (s.files.filterMap fun file =>
      match file.convertedFile with
      | some cf => if file.status = "converted" then some (cf.name, cf) else none
      | none => none,
   "imagens-convertidas.zip")

/-- `handleReset`: empty batch, `appState` back to "upload". -/
def handleReset (_s : AppState) : AppState :=
  { files := [], appState := "upload" }

/-- The initial state: `useState([])`, `useState('upload')`. -/
def initialState : AppState :=
  { files := [], appState := "upload" }

/-- States reachable by any sequence of the store/orchestrator operations,
with `handleConvert` quantified over all ConversionService outcomes. -/
inductive Reachable : AppState → Prop
  | init : Reachable initialState
  | createBatch (s : AppState) (acceptedFiles : List InputFile) :
      Reachable s → Reachable (handleFilesAccepted s acceptedFiles)
  | setTarget (s : AppState) (id newType : String) :
      Reachable s → Reachable (handleTargetTypeChange s id newType)
  | applyToAll (s : AppState) (newType : String) :
      Reachable s → Reachable (handleApplyToAll s newType)
  | convert (s : AppState) (oracle : Nat → Option Nat) :
      Reachable s → Reachable (handleConvert s oracle)
  | reset (s : AppState) :
      Reachable s → Reachable (handleReset s)

/-! ### Lemmas about the embedding's helper functions -/

theorem length_mapWithIndex (g : Nat → α → β) :
    ∀ (k : Nat) (l : List α), (mapWithIndex g k l).length = l.length
  | _, [] => rfl
  | k, _ :: as => by simp [mapWithIndex, length_mapWithIndex g (k + 1) as]

theorem getElem?_mapWithIndex (g : Nat → α → β) :
    ∀ (k : Nat) (l : List α) (j : Nat),
      (mapWithIndex g k l)[j]? = (l[j]?).map (fun a => g (k + j) a)
  | _, [], _ => by simp [mapWithIndex]
  | _, _ :: _, 0 => by simp [mapWithIndex]
  | k, _ :: as, j + 1 => by
      simp only [mapWithIndex, List.getElem?_cons_succ]
      rw [getElem?_mapWithIndex g (k + 1) as j]
      have h : k + 1 + j = k + (j + 1) := by omega
      rw [h]

theorem mem_mapWithIndex (g : Nat → α → β) :
    ∀ (k : Nat) (l : List α) (x : β), x ∈ mapWithIndex g k l →
      ∃ j a, k ≤ j ∧ a ∈ l ∧ x = g j a
  | _, [], _, h => by simp [mapWithIndex] at h
  | k, a :: as, x, h => by
      simp only [mapWithIndex, List.mem_cons] at h
      rcases h with h | h
      · exact ⟨k, a, Nat.le_refl k, List.mem_cons_self a as, h⟩
      · obtain ⟨j, b, hkj, hb, hx⟩ := mem_mapWithIndex g (k + 1) as x h
        exact ⟨j, b, by omega, List.mem_cons_of_mem a hb, hx⟩

theorem map_mapWithIndex (g : Nat → α → β) (p : α → γ) (q : β → γ)
    (hpq : ∀ i a, q (g i a) = p a) :
    ∀ (k : Nat) (l : List α), (mapWithIndex g k l).map q = l.map p
  | _, [] => rfl
  | k, a :: as => by
      simp [mapWithIndex, hpq, map_mapWithIndex g p q hpq (k + 1) as]

theorem nodup_mapWithIndex (g : Nat → α → β)
    (hg : ∀ i j a b, i ≠ j → g i a ≠ g j b) :
    ∀ (k : Nat) (l : List α), (mapWithIndex g k l).Nodup
  | _, [] => List.nodup_nil
  | k, a :: as => by
      rw [mapWithIndex, List.nodup_cons]
      refine ⟨fun hmem => ?_, nodup_mapWithIndex g hg (k + 1) as⟩
      obtain ⟨j, b, hkj, _, hx⟩ := mem_mapWithIndex g (k + 1) as _ hmem
      exact hg k j a b (by omega) hx

theorem digitChar_injOn : ∀ a < 10, ∀ b < 10,
    Nat.digitChar a = Nat.digitChar b → a = b := by decide

theorem decDigitsAux_congr (n : Nat) :
    ∀ f1 f2, n < f1 → n < f2 → decDigitsAux f1 n = decDigitsAux f2 n := by
  induction n using Nat.strong_induction_on with
  | _ n ih =>
    intro f1 f2 h1 h2
    match f1, f2 with
    | g1 + 1, g2 + 1 =>
      by_cases h10 : n < 10
      · simp [decDigitsAux, h10]
      · simp only [decDigitsAux, if_neg h10]
        rw [ih (n / 10) (Nat.div_lt_self (by omega) (by omega)) g1 g2
          (by omega) (by omega)]

theorem decDigits_eq (n : Nat) :
    decDigits n =
      if n < 10 then [Nat.digitChar n]
      else decDigits (n / 10) ++ [Nat.digitChar (n % 10)] := by
  show decDigitsAux (n + 1) n = _
  by_cases h10 : n < 10
  · simp [decDigitsAux, h10]
  · simp only [decDigitsAux, if_neg h10]
    rw [decDigitsAux_congr (n / 10) n (n / 10 + 1)
      (Nat.div_lt_self (by omega) (by omega)) (by omega)]
    rfl

theorem decDigits_ne_nil (n : Nat) : decDigits n ≠ [] := by
  rw [decDigits_eq]
  split
  · simp
  · simp

theorem decDigits_digit (n : Nat) :
    ∀ c ∈ decDigits n, ∃ d, d < 10 ∧ c = Nat.digitChar d := by
  induction n using Nat.strong_induction_on with
  | _ n ih =>
    rw [decDigits_eq]
    split
    · rename_i h
      intro c hc
      simp only [List.mem_singleton] at hc
      exact ⟨n, h, hc⟩
    · rename_i h
      intro c hc
      rcases List.mem_append.mp hc with hc | hc
      · exact ih (n / 10) (Nat.div_lt_self (by omega) (by omega)) c hc
      · simp only [List.mem_singleton] at hc
        exact ⟨n % 10, Nat.mod_lt _ (by omega), hc⟩

theorem decDigits_ne_dash (n : Nat) : ∀ c ∈ decDigits n, c ≠ '-' := by
  intro c hc
  obtain ⟨d, hd, rfl⟩ := decDigits_digit n c hc
  have hall : ∀ d < 10, Nat.digitChar d ≠ '-' := by decide
  exact hall d hd

theorem decDigits_inj : ∀ m n : Nat, decDigits m = decDigits n → m = n := by
  intro m
  induction m using Nat.strong_induction_on with
  | _ m ih =>
    intro n h
    rw [decDigits_eq m, decDigits_eq n] at h
    by_cases hm : m < 10 <;> by_cases hn : n < 10
    · simp only [if_pos hm, if_pos hn, List.cons.injEq] at h
      exact digitChar_injOn m hm n hn h.1
    · exfalso
      simp only [if_pos hm, if_neg hn] at h
      have hl := congrArg List.length h
      rw [List.length_append] at hl
      simp only [List.length_singleton] at hl
      exact decDigits_ne_nil (n / 10) (List.length_eq_zero.mp (by omega))
    · exfalso
      simp only [if_neg hm, if_pos hn] at h
      have hl := congrArg List.length h
      rw [List.length_append] at hl
      simp only [List.length_singleton] at hl
      exact decDigits_ne_nil (m / 10) (List.length_eq_zero.mp (by omega))
    · simp only [if_neg hm, if_neg hn] at h
      obtain ⟨h1, h2⟩ := List.append_inj' h rfl
      simp only [List.cons.injEq] at h2
      have e1 : m / 10 = n / 10 :=
        ih (m / 10) (Nat.div_lt_self (by omega) (by omega)) (n / 10) h1
      have e2 : m % 10 = n % 10 :=
        digitChar_injOn _ (Nat.mod_lt _ (by omega)) _ (Nat.mod_lt _ (by omega)) h2.1
      omega

theorem eq_of_append_dash_eq :
    ∀ (a b x y : List Char),
      (∀ c ∈ x, c ≠ '-') → (∀ c ∈ y, c ≠ '-') →
      a ++ '-' :: x = b ++ '-' :: y → x = y
  | [], [], _, _, _, _, h => by simpa using h
  | [], _ :: b', x, y, hx, _, h => by
      simp only [List.nil_append, List.cons_append, List.cons.injEq] at h
      exact absurd rfl (hx '-'
        (by rw [h.2]; exact List.mem_append_right _ (List.mem_cons_self _ _)))
  | _ :: a', [], x, y, _, hy, h => by
      simp only [List.nil_append, List.cons_append, List.cons.injEq] at h
      exact absurd rfl (hy '-'
        (by rw [← h.2]; exact List.mem_append_right _ (List.mem_cons_self _ _)))
  | _ :: a', _ :: b', x, y, hx, hy, h => by
      simp only [List.cons_append, List.cons.injEq] at h
      exact eq_of_append_dash_eq a' b' x y hx hy h.2

theorem idOf_data (name : String) (m i : Nat) :
    (idOf name m i).data =
      (name.data ++ '-' :: decDigits m) ++ '-' :: decDigits i := by
  have hdash : ("-" : String).data = ['-'] := rfl
  simp [idOf, decStr, String.data_append, hdash, List.append_assoc]

theorem idOf_inj_index (n1 n2 : String) (m1 m2 i j : Nat)
    (h : idOf n1 m1 i = idOf n2 m2 j) : i = j := by
  have hd := congrArg String.data h
  rw [idOf_data, idOf_data] at hd
  exact decDigits_inj i j
    (eq_of_append_dash_eq _ _ _ _ (decDigits_ne_dash i) (decDigits_ne_dash j) hd)

theorem takeWhile_all (p : Char → Bool) :
    ∀ (l : List Char), (∀ c ∈ l, p c = true) → l.takeWhile p = l
  | [], _ => rfl
  | c :: cs, h => by
      simp [List.takeWhile_cons, h c (List.mem_cons_self _ _),
        takeWhile_all p cs (fun d hd => h d (List.mem_cons_of_mem c hd))]

theorem map_mapWithIndex_comp (g : Nat → α → β) (q : β → γ) :
    ∀ (k : Nat) (l : List α),
      (mapWithIndex g k l).map q = mapWithIndex (fun i a => q (g i a)) k l
  | _, [] => rfl
  | k, a :: as => by simp [mapWithIndex, map_mapWithIndex_comp g q (k + 1) as]

theorem map_if_id_of_ne (tid newType : String) :
    ∀ (l : List FileEntry), (∀ f ∈ l, f.id ≠ tid) →
      (l.map fun file =>
        if file.id = tid then { file with targetType := newType } else file) = l
  | [], _ => rfl
  | a :: as, h => by
      simp only [List.map_cons, if_neg (h a (List.mem_cons_self a as)),
        map_if_id_of_ne tid newType as (fun f hf => h f (List.mem_cons_of_mem a hf))]

theorem stemOf_of_no_dot (s : String) (h : '.' ∉ s.data) : stemOf s = "" := by
  unfold stemOf stemChars
  have hall : ∀ c ∈ s.data.reverse, (c != '.') = true := by
    intro c hc
    simp only [List.mem_reverse] at hc
    simp only [bne_iff_ne, ne_eq]
    intro hEq
    rw [hEq] at hc
    exact h hc
  simp [takeWhile_all _ _ hall]

/-! ### Claims -/

/-- Claim C1 as stated is false on the code: `handleTargetTypeChange` has no
status guard, so on a reachable batch whose single entry has status
"converted" (and targetFormat "webp"), calling it with that entry's id and
"png" does change the entry's targetFormat to "png". -/
theorem c1_counterexample :
    Reachable (handleConvert
      (handleFilesAccepted initialState [⟨"a.png", 5, "image/png", 1⟩])
      (fun _ => some 7)) ∧
    (handleConvert
      (handleFilesAccepted initialState [⟨"a.png", 5, "image/png", 1⟩])
      (fun _ => some 7)).files.map (fun f => (f.status, f.targetType)) =
      [("converted", "webp")] ∧
    (handleTargetTypeChange
      (handleConvert
        (handleFilesAccepted initialState [⟨"a.png", 5, "image/png", 1⟩])
        (fun _ => some 7))
      "a.png-5-0" "png").files.map (fun f => (f.status, f.targetType)) =
      [("converted", "png")] := by
  refine ⟨Reachable.convert _ _ (Reachable.createBatch _ _ Reachable.init), ?_, ?_⟩
  · rfl
  · rfl

/-- Claim C1 (amended): `setTargetFormat(id, format)` updates the
targetFormat of every entry whose id matches, regardless of that entry's
status (the pending-only restriction is enforced only by the UI, which
renders the per-entry selector solely for pending entries), and changes no
other field and not the phase; for every id not present in the batch it
leaves the whole batch unchanged. -/
theorem c1_set_target_format (s : AppState) (tid newType : String) :
    (handleTargetTypeChange s tid newType).appState = s.appState ∧
    (∀ j : Nat, (handleTargetTypeChange s tid newType).files[j]? =
      (s.files[j]?).map fun f =>
        if f.id = tid then { f with targetType := newType } else f) ∧
    ((∀ f ∈ s.files, f.id ≠ tid) → handleTargetTypeChange s tid newType = s) := by
  refine ⟨rfl, fun j => ?_, fun hid => ?_⟩
  · exact List.getElem?_map _ s.files j
  · show { s with files := _ } = s
    rw [map_if_id_of_ne tid newType s.files hid]

/-- Witness for the amended C1, at a concrete batch and an unknown id. -/
theorem c1_set_target_format_witness :
    handleTargetTypeChange
      (handleFilesAccepted initialState [⟨"a.png", 5, "image/png", 1⟩])
      "zzz" "png" =
      handleFilesAccepted initialState [⟨"a.png", 5, "image/png", 1⟩] :=
  (c1_set_target_format
    (handleFilesAccepted initialState [⟨"a.png", 5, "image/png", 1⟩])
    "zzz" "png").2.2 (by decide)

/-- Claim C3: `convertAll` issues one task per entry present (the result has
one entry per entry of the batch at call time), and after it resolves every
entry has status "converted" or "error". -/
theorem c3_convert_all_terminal (s : AppState) (oracle : Nat → Option Nat) :
    (handleConvert s oracle).files.length = s.files.length ∧
    ∀ f ∈ (handleConvert s oracle).files,
      f.status = "converted" ∨ f.status = "error" := by
  refine ⟨length_mapWithIndex _ 0 s.files, fun f hf => ?_⟩
  obtain ⟨j, a, _, _, rfl⟩ := mem_mapWithIndex _ 0 s.files f hf
  cases oracle j with
  | some b => exact Or.inl rfl
  | none => exact Or.inr rfl

/-- Witness for C3 at a concrete one-entry batch and a succeeding oracle. -/
theorem c3_convert_all_terminal_witness :
    (convertOne (some 7) (mkEntry 0 ⟨"a.png", 5, "image/png", 1⟩)).status =
      "converted" ∨
    (convertOne (some 7) (mkEntry 0 ⟨"a.png", 5, "image/png", 1⟩)).status =
      "error" :=
  (c3_convert_all_terminal
    (handleFilesAccepted initialState [⟨"a.png", 5, "image/png", 1⟩])
    (fun _ => some 7)).2
    (convertOne (some 7) (mkEntry 0 ⟨"a.png", 5, "image/png", 1⟩))
    (List.mem_singleton_self _)

/-- Claim C5: the entry sequence after `convertAll` has the same length and
the same per-position ids and originalNames, in the same order, as before
the call (the `Promise.all` join in the model is an indexed map, which is
order-preserving by construction, independent of task completion order). -/
theorem c5_order_preserved (s : AppState) (oracle : Nat → Option Nat) :
    (handleConvert s oracle).files.length = s.files.length ∧
    (handleConvert s oracle).files.map (fun f => (f.id, f.originalName)) =
      s.files.map fun f => (f.id, f.originalName) := by
  refine ⟨length_mapWithIndex _ 0 s.files, ?_⟩
  exact map_mapWithIndex _ _ _
    (fun i a => by cases oracle i <;> rfl) 0 s.files

/-- Claim C7: `setAllTargetFormats(format)` sets targetFormat of every
entry regardless of status and changes nothing else; applying it after an
individual `setTargetFormat` gives the same batch as applying it directly,
so all entries (including the individually-set one) end at the new format. -/
theorem c7_apply_to_all (s : AppState) (newType : String) :
    (handleApplyToAll s newType).appState = s.appState ∧
    (∀ j : Nat, (handleApplyToAll s newType).files[j]? =
      (s.files[j]?).map fun f => { f with targetType := newType }) ∧
    (∀ tid t1 : String,
      handleApplyToAll (handleTargetTypeChange s tid t1) newType =
        handleApplyToAll s newType) := by
  refine ⟨rfl, fun j => List.getElem?_map _ s.files j, fun tid t1 => ?_⟩
  simp only [handleApplyToAll, handleTargetTypeChange, List.map_map]
  congr 1
  apply List.map_congr_left
  intro a _
  by_cases hid : a.id = tid
  · simp [hid]
  · simp [hid]

/-- Claim C8: `createBatch` replaces any existing batch with exactly one
entry per input file, in input order, each pending, targetFormat "webp",
result blob absent, id `name-lastModified-index`; the phase becomes
"managing", and the result is independent of the previous state. -/
theorem c8_create_batch (s : AppState) (acceptedFiles : List InputFile) :
    (handleFilesAccepted s acceptedFiles).appState = "managing" ∧
    (handleFilesAccepted s acceptedFiles).files.length = acceptedFiles.length ∧
    (∀ j : Nat, (handleFilesAccepted s acceptedFiles).files[j]? =
      (acceptedFiles[j]?).map fun file =>
        { id := idOf file.name file.lastModified j
          originalFile := file
          originalName := file.name
          originalType := mimeSubtype file.type
          targetType := "webp"
          status := "pending"
          convertedFile := none }) ∧
    (∀ s2 : AppState,
      handleFilesAccepted s acceptedFiles = handleFilesAccepted s2 acceptedFiles) := by
  refine ⟨rfl, length_mapWithIndex _ 0 _, fun j => ?_, fun s2 => rfl⟩
  rw [show (handleFilesAccepted s acceptedFiles).files =
        mapWithIndex mkEntry 0 acceptedFiles from rfl,
    getElem?_mapWithIndex]
  simp [mkEntry]

/-- Claim C2 as stated is false on the code: the `catch` branch of
`handleConvert` spreads the old entry without clearing `convertedFile`, so
after `createBatch`, a succeeding `convertAll`, and a second `convertAll`
in which the same entry fails, the reachable batch has an entry with
status "error" whose resultBlob is still non-null. -/
theorem c2_counterexample :
    Reachable (handleConvert
      (handleConvert
        (handleFilesAccepted initialState [⟨"a.png", 5, "image/png", 1⟩])
        (fun _ => some 7))
      (fun _ => none)) ∧
    (handleConvert
      (handleConvert
        (handleFilesAccepted initialState [⟨"a.png", 5, "image/png", 1⟩])
        (fun _ => some 7))
      (fun _ => none)).files.map (fun f => (f.status, f.convertedFile.isSome)) =
      [("error", true)] :=
  ⟨Reachable.convert _ _ (Reachable.convert _ _
    (Reachable.createBatch _ _ Reachable.init)), rfl⟩

/-- Claim C2 (amended): in every reachable batch state, an entry with
status "converted" has a non-null resultBlob and an entry with status
"pending" has a null resultBlob; the converse ("non-null only if
converted") fails in general, because an entry failing in a repeated
`convertAll` keeps its earlier result blob while showing status "error". -/
theorem c2_result_blob_invariant (s : AppState) (h : Reachable s) :
    ∀ f ∈ s.files,
      (f.status = "converted" → f.convertedFile.isSome = true) ∧
      (f.status = "pending" → f.convertedFile = none) := by
  induction h with
  | init => intro f hf; simp [initialState] at hf
  | createBatch s0 accepted _ _ =>
      intro f hf
      obtain ⟨j, a, _, _, rfl⟩ := mem_mapWithIndex _ 0 accepted f hf
      exact ⟨fun hst => by simp [mkEntry] at hst, fun _ => rfl⟩
  | setTarget s0 tid fmt _ ih =>
      intro f hf
      obtain ⟨a, ha, rfl⟩ := List.mem_map.mp hf
      by_cases hid : a.id = tid
      · rw [if_pos hid]; exact ih a ha
      · rw [if_neg hid]; exact ih a ha
  | applyToAll s0 fmt _ ih =>
      intro f hf
      obtain ⟨a, ha, rfl⟩ := List.mem_map.mp hf
      exact ih a ha
  | convert s0 oracle _ _ =>
      intro f hf
      obtain ⟨j, a, _, _, rfl⟩ := mem_mapWithIndex _ 0 s0.files f hf
      cases ho : oracle j with
      | some b =>
          exact ⟨fun _ => by simp [convertOne], fun hst => by simp [convertOne] at hst⟩
      | none =>
          exact ⟨fun hst => by simp [convertOne] at hst,
            fun hst => by simp [convertOne] at hst⟩
  | reset s0 _ _ => intro f hf; simp [handleReset] at hf

/-- Witness for the amended C2, at a freshly created one-entry batch. -/
theorem c2_result_blob_invariant_witness :
    ((mkEntry 0 ⟨"a.png", 5, "image/png", 1⟩).status = "converted" →
      (mkEntry 0 ⟨"a.png", 5, "image/png", 1⟩).convertedFile.isSome = true) ∧
    ((mkEntry 0 ⟨"a.png", 5, "image/png", 1⟩).status = "pending" →
      (mkEntry 0 ⟨"a.png", 5, "image/png", 1⟩).convertedFile = none) :=
  c2_result_blob_invariant
    (handleFilesAccepted initialState [⟨"a.png", 5, "image/png", 1⟩])
    (Reachable.createBatch initialState [⟨"a.png", 5, "image/png", 1⟩]
      Reachable.init)
    (mkEntry 0 ⟨"a.png", 5, "image/png", 1⟩) (List.mem_singleton_self _)

/-- Claim C4: if the ConversionService call of entry `i` fails, `convertAll`
still completes with one result per entry, marks entry `i` "error", and
gives every other entry exactly the result it gets under any oracle that
behaves the same on those entries but succeeds on `i` — one entry's failure
never aborts the batch nor affects sibling entries. -/
theorem c4_failure_isolation (s : AppState) (o1 o2 : Nat → Option Nat) (i : Nat)
    (hfail : o1 i = none) (hagree : ∀ j, j ≠ i → o1 j = o2 j) :
    (handleConvert s o1).files.length = s.files.length ∧
    ((handleConvert s o1).files[i]?).map (fun f => f.status) =
      (s.files[i]?).map (fun _ => "error") ∧
    (∀ j, j ≠ i → (handleConvert s o1).files[j]? = (handleConvert s o2).files[j]?) := by
  refine ⟨length_mapWithIndex _ 0 s.files, ?_, fun j hj => ?_⟩
  · rw [show (handleConvert s o1).files = mapWithIndex _ 0 s.files from rfl,
      getElem?_mapWithIndex]
    cases s.files[i]? with
    | none => rfl
    | some a =>
        show some ((convertOne (o1 (0 + i)) a).status) = some "error"
        rw [Nat.zero_add, hfail]
        rfl
  · rw [show (handleConvert s o1).files = mapWithIndex _ 0 s.files from rfl,
      show (handleConvert s o2).files = mapWithIndex _ 0 s.files from rfl,
      getElem?_mapWithIndex, getElem?_mapWithIndex]
    cases s.files[j]? with
    | none => rfl
    | some a =>
        show some (convertOne (o1 (0 + j)) a) = some (convertOne (o2 (0 + j)) a)
        rw [Nat.zero_add, hagree j hj]

/-- Witness for C4: a two-entry batch, an oracle failing entry 0, and a
second oracle succeeding everywhere. -/
theorem c4_failure_isolation_witness :
    (handleConvert
        (handleFilesAccepted initialState
          [⟨"a.png", 5, "image/png", 1⟩, ⟨"b.jpg", 6, "image/jpeg", 2⟩])
        (fun k => if k = 0 then none else some 9)).files.length =
      (handleFilesAccepted initialState
        [⟨"a.png", 5, "image/png", 1⟩, ⟨"b.jpg", 6, "image/jpeg", 2⟩]).files.length ∧
    ((handleConvert
        (handleFilesAccepted initialState
          [⟨"a.png", 5, "image/png", 1⟩, ⟨"b.jpg", 6, "image/jpeg", 2⟩])
        (fun k => if k = 0 then none else some 9)).files[0]?).map
      (fun (f : FileEntry) => f.status) =
      ((handleFilesAccepted initialState
        [⟨"a.png", 5, "image/png", 1⟩, ⟨"b.jpg", 6, "image/jpeg", 2⟩]).files[0]?).map
        (fun _ => "error") ∧
    (∀ j, j ≠ 0 →
      (handleConvert
        (handleFilesAccepted initialState
          [⟨"a.png", 5, "image/png", 1⟩, ⟨"b.jpg", 6, "image/jpeg", 2⟩])
        (fun k => if k = 0 then none else some 9)).files[j]? =
      (handleConvert
        (handleFilesAccepted initialState
          [⟨"a.png", 5, "image/png", 1⟩, ⟨"b.jpg", 6, "image/jpeg", 2⟩])
        (fun _ => some 9)).files[j]?) :=
  c4_failure_isolation
    (handleFilesAccepted initialState
      [⟨"a.png", 5, "image/png", 1⟩, ⟨"b.jpg", 6, "image/jpeg", 2⟩])
    (fun k => if k = 0 then none else some 9) (fun _ => some 9) 0
    rfl (fun j hj => by simp [hj])

/-- Claim C9: the ids assigned by `createBatch` are pairwise distinct for
every input list (duplicate name/mtime pairs and names containing dashes
and digits included, since the id's final dash-separated component is the
decimal position), and every later operation preserves each entry's id, so
the ids of every reachable batch are pairwise distinct. -/
theorem c9_ids_nodup (s : AppState) (h : Reachable s) :
    (s.files.map fun f => f.id).Nodup := by
  induction h with
  | init => exact List.nodup_nil
  | createBatch s0 accepted _ _ =>
      show ((mapWithIndex mkEntry 0 accepted).map fun f => f.id).Nodup
      rw [map_mapWithIndex_comp]
      exact nodup_mapWithIndex _
        (fun i j a b hij hEq => hij (idOf_inj_index _ _ _ _ _ _ hEq)) 0 accepted
  | setTarget s0 tid fmt _ ih =>
      simp only [handleTargetTypeChange, List.map_map]
      have hcomp : ((fun f : FileEntry => f.id) ∘ fun file =>
          if file.id = tid then { file with targetType := fmt } else file) =
          fun f : FileEntry => f.id := by
        funext a
        by_cases hid : a.id = tid
        · simp [hid]
        · simp [hid]
      rw [hcomp]
      exact ih
  | applyToAll s0 fmt _ ih =>
      simp only [handleApplyToAll, List.map_map]
      exact ih
  | convert s0 oracle _ ih =>
      simp only [handleConvert]
      rw [map_mapWithIndex (fun i file => convertOne (oracle i) file)
        (fun f : FileEntry => f.id) (fun f : FileEntry => f.id)
        (fun i a => by cases ho : oracle i <;> simp [convertOne, ho]) 0 s0.files]
      exact ih
  | reset s0 _ _ => exact List.nodup_nil

/-- Witness for C9: a reachable batch of two files sharing the same name
(containing a dash and a digit) and the same modification time. -/
theorem c9_ids_nodup_witness :
    ((handleFilesAccepted initialState
      [⟨"a-1.png", 5, "image/png", 1⟩,
       ⟨"a-1.png", 5, "image/png", 2⟩]).files.map fun f => f.id).Nodup :=
  c9_ids_nodup _ (Reachable.createBatch _ _ Reachable.init)

theorem download_pairs_filter :
    ∀ l : List FileEntry,
      l.filterMap (fun file =>
        match file.convertedFile with
        | some cf => if file.status = "converted" then some (cf.name, cf) else none
        | none => none) =
      (l.filter fun f => f.status == "converted").filterMap
        (fun f => f.convertedFile.map fun cf => (cf.name, cf))
  | [] => rfl
  | a :: as => by
      rw [List.filterMap_cons, List.filter_cons]
      by_cases hst : a.status = "converted"
      · cases hcf : a.convertedFile with
        | some cf =>
            simp [hcf, hst, List.filterMap_cons, download_pairs_filter as]
        | none =>
            simp [hcf, hst, List.filterMap_cons, download_pairs_filter as]
      · cases hcf : a.convertedFile with
        | some cf => simp [hcf, hst, download_pairs_filter as]
        | none => simp [hcf, hst, download_pairs_filter as]

theorem converted_blob_name (s : AppState) (h : Reachable s) :
    ∀ f ∈ s.files, ∀ cf, f.convertedFile = some cf →
      ∃ fmt, cf.name = stemOf f.originalName ++ "." ++ fmt ∧
        cf.mime = "image/" ++ fmt := by
  induction h with
  | init => intro f hf; simp [initialState] at hf
  | createBatch s0 accepted _ _ =>
      intro f hf cf hcf
      obtain ⟨j, a, _, _, rfl⟩ := mem_mapWithIndex _ 0 accepted f hf
      simp [mkEntry] at hcf
  | setTarget s0 tid fmt0 _ ih =>
      intro f hf cf hcf
      obtain ⟨a, ha, rfl⟩ := List.mem_map.mp hf
      by_cases hid : a.id = tid
      · rw [if_pos hid] at hcf ⊢
        exact ih a ha cf hcf
      · rw [if_neg hid] at hcf ⊢
        exact ih a ha cf hcf
  | applyToAll s0 fmt0 _ ih =>
      intro f hf cf hcf
      obtain ⟨a, ha, rfl⟩ := List.mem_map.mp hf
      exact ih a ha cf hcf
  | convert s0 oracle _ ih =>
      intro f hf cf hcf
      obtain ⟨j, a, _, ha, rfl⟩ := mem_mapWithIndex _ 0 s0.files f hf
      cases ho : oracle j with
      | some b =>
          rw [ho] at hcf
          simp only [convertOne, Option.some.injEq] at hcf
          subst hcf
          exact ⟨a.targetType, rfl, rfl⟩
      | none =>
          rw [ho] at hcf
          exact ih a ha cf hcf
  | reset s0 _ _ => intro f hf; simp [handleReset] at hf

/-- Claim C6 as stated is false on the code at a reachable batch built by
`createBatch` on "a.png", a succeeding `convertAll` targeting "webp", and
then `setAllTargetFormats("png")`: first, `downloadAll` delivers the
archive under the name "imagens-convertidas.zip", not
"images-converted.zip"; second, the handed pair is named "a.webp" — the
name assigned at conversion time — while `<original-stem>.<targetFormat>`
with the entry's current targetFormat would be "a.png". -/
theorem c6_counterexample :
    Reachable (handleApplyToAll (handleConvert
      (handleFilesAccepted initialState [⟨"a.png", 5, "image/png", 1⟩])
      (fun _ => some 7)) "png") ∧
    (handleDownloadAll (handleApplyToAll (handleConvert
      (handleFilesAccepted initialState [⟨"a.png", 5, "image/png", 1⟩])
      (fun _ => some 7)) "png")).2 = "imagens-convertidas.zip" ∧
    ("imagens-convertidas.zip" : String) ≠ "images-converted.zip" ∧
    (handleDownloadAll (handleApplyToAll (handleConvert
      (handleFilesAccepted initialState [⟨"a.png", 5, "image/png", 1⟩])
      (fun _ => some 7)) "png")).1.map Prod.fst = ["a.webp"] ∧
    (handleApplyToAll (handleConvert
      (handleFilesAccepted initialState [⟨"a.png", 5, "image/png", 1⟩])
      (fun _ => some 7)) "png").files.map
      (fun f => (f.status, stemOf f.originalName ++ "." ++ f.targetType)) =
      [("converted", "a.png")] ∧
    ("a.webp" : String) ≠ "a.png" :=
  ⟨Reachable.applyToAll _ _ (Reachable.convert _ _
      (Reachable.createBatch _ _ Reachable.init)),
    rfl, by decide, rfl, rfl, by decide⟩

/-- Claim C6 (amended): for every reachable batch, `downloadAll` hands
ArchiveBuilder exactly the (name, blob) pairs of the entries with status
"converted" and a present resultBlob, in entry order, excluding every
"error" entry; each handed pair is named `<original-stem>.<fmt>` where
`fmt` is the targetFormat the entry had at the `convertAll` that produced
the blob (recorded in the blob's MIME type `image/<fmt>` — a later format
change does not rename an existing result); and the archive blob is
delivered under the name "imagens-convertidas.zip". -/
theorem c6_download_all (s : AppState) (h : Reachable s) :
    (handleDownloadAll s).2 = "imagens-convertidas.zip" ∧
    (handleDownloadAll s).1 =
      (s.files.filter fun f => f.status == "converted").filterMap
        (fun f => f.convertedFile.map fun cf => (cf.name, cf)) ∧
    (∀ p ∈ (handleDownloadAll s).1, ∃ f ∈ s.files, ∃ fmt,
      f.status = "converted" ∧ f.convertedFile = some p.2 ∧
      p.1 = stemOf f.originalName ++ "." ++ fmt ∧
      p.2.mime = "image/" ++ fmt) := by
  refine ⟨rfl, download_pairs_filter s.files, fun p hp => ?_⟩
  obtain ⟨f, hf, hEq⟩ := List.mem_filterMap.mp hp
  cases hcf : f.convertedFile with
  | none =>
      rw [hcf] at hEq
      exact absurd hEq (by simp)
  | some cf =>
      rw [hcf] at hEq
      have hEq2 : (if f.status = "converted" then some (cf.name, cf) else none) =
          some p := hEq
      by_cases hst : f.status = "converted"
      · rw [if_pos hst] at hEq2
        have hp2 := Option.some.inj hEq2
        subst hp2
        obtain ⟨fmt, h1, h2⟩ := converted_blob_name s h f hf cf hcf
        exact ⟨f, hf, fmt, hst, hcf, h1, h2⟩
      · rw [if_neg hst] at hEq2
        exact absurd hEq2 (by simp)

/-- Witness for the amended C6, at a reachable batch with one successfully
converted entry. -/
theorem c6_download_all_witness :
    (handleDownloadAll (handleConvert
      (handleFilesAccepted initialState [⟨"a.png", 5, "image/png", 1⟩])
      (fun _ => some 7))).2 = "imagens-convertidas.zip" ∧
    (handleDownloadAll (handleConvert
      (handleFilesAccepted initialState [⟨"a.png", 5, "image/png", 1⟩])
      (fun _ => some 7))).1 =
      ((handleConvert
        (handleFilesAccepted initialState [⟨"a.png", 5, "image/png", 1⟩])
        (fun _ => some 7)).files.filter fun f =>
          f.status == "converted").filterMap
        (fun f => f.convertedFile.map fun cf => (cf.name, cf)) ∧
    (∀ p ∈ (handleDownloadAll (handleConvert
        (handleFilesAccepted initialState [⟨"a.png", 5, "image/png", 1⟩])
        (fun _ => some 7))).1,
      ∃ f ∈ (handleConvert
        (handleFilesAccepted initialState [⟨"a.png", 5, "image/png", 1⟩])
        (fun _ => some 7)).files, ∃ fmt,
      f.status = "converted" ∧ f.convertedFile = some p.2 ∧
      p.1 = stemOf f.originalName ++ "." ++ fmt ∧
      p.2.mime = "image/" ++ fmt) :=
  c6_download_all
    (handleConvert
      (handleFilesAccepted initialState [⟨"a.png", 5, "image/png", 1⟩])
      (fun _ => some 7))
    (Reachable.convert _ _ (Reachable.createBatch _ _ Reachable.init))

/-- Claim C10: for an entry whose originalName contains no '.', a
successful conversion names the result file "." followed by the entry's
targetFormat — the stem is empty and the base name is dropped. -/
theorem c10_no_dot_result_name (s : AppState) (oracle : Nat → Option Nat)
    (i : Nat) (f : FileEntry) (b : Nat)
    (hf : s.files[i]? = some f) (hdot : '.' ∉ f.originalName.data)
    (hb : oracle i = some b) :
    ((handleConvert s oracle).files[i]?).map
      (fun g => g.convertedFile.map fun c => c.name) =
      some (some ("." ++ f.targetType)) := by
  rw [show (handleConvert s oracle).files = mapWithIndex _ 0 s.files from rfl,
    getElem?_mapWithIndex, hf]
  show some ((convertOne (oracle (0 + i)) f).convertedFile.map fun c => c.name) = _
  rw [Nat.zero_add, hb]
  show some (some (stemOf f.originalName ++ "." ++ f.targetType)) = _
  rw [stemOf_of_no_dot f.originalName hdot,
    show ("" ++ "." : String) = "." from rfl]

/-- Witness for C10: a one-entry batch whose file is named "photo". -/
theorem c10_no_dot_result_name_witness :
    ((handleConvert
        (handleFilesAccepted initialState [⟨"photo", 5, "image/png", 1⟩])
        (fun _ => some 7)).files[0]?).map
      (fun g => g.convertedFile.map fun c => c.name) =
      some (some ("." ++ (mkEntry 0 ⟨"photo", 5, "image/png", 1⟩).targetType)) :=
  c10_no_dot_result_name
    (handleFilesAccepted initialState [⟨"photo", 5, "image/png", 1⟩])
    (fun _ => some 7) 0 (mkEntry 0 ⟨"photo", 5, "image/png", 1⟩) 7
    rfl (by decide) rfl

end ConversorWeb
